import Mathlib

/-
  Verification of the raw-backup coordinator (pkg/raw/full.go).

  The Go source is shallowly embedded: every external call (PD timestamp
  allocation, store listing, region lookup, the per-store backup stream,
  lock resolution, manifest marshalling and the file write) is an oracle
  supplied as data, and the concurrent fine-grained retry engine is
  determinized into a sequential round function that processes the
  incomplete sub-ranges in dispatch order.  Machine integers are Int/Nat;
  no overflow is relevant to the modelled quantities (millisecond counts,
  timestamps).
-/

namespace Raw

/-- A key is an opaque byte string, ordered lexicographically. -/
abbrev Key := List Nat

/-- Strict lexicographic order on keys (Go `bytes.Compare(a, b) < 0`). -/
def keyLtB : Key → Key → Bool
  | [], [] => false
  | [], _ :: _ => true
  | _ :: _, [] => false
  | a :: as, b :: bs => if a < b then true else if b < a then false else keyLtB as bs

/-- An empty end bound means "to infinity" for range end keys. -/
def endIsInf (e : Key) : Bool := e.isEmpty

/-- Output file descriptor produced by a store (backup.File; only the
name participates in the duplicate audit). -/
structure File where
  name : String
  deriving DecidableEq, Repr

/-- A confirmed or pending interval together with the files produced for
it (the repository's `Range`). -/
structure Range where
  startKey : Key
  endKey : Key
  files : List File
  deriving DecidableEq, Repr

/-- Modelled from the spec: the interval-coverage ledger (`RangeTree`,
whose own source file is not part of src/) is a key-ordered list of
disjoint confirmed ranges. -/
structure RangeTree where
  ranges : List Range
  deriving DecidableEq, Repr

/-- Extend the covered-up-to cursor past a confirmed range's end key
(`none` = covered to infinity). -/
def bumpCursor (cur : Key) (re : Key) : Option Key :=
  if endIsInf re then none else if keyLtB cur re then some re else some cur

/-- Modelled from the spec: walk the confirmed ranges in key order and
emit the gaps before, between and after them that fall inside
`[cur, e)`; a `none` cursor means coverage already reached infinity. -/
def getIncompleteAux (e : Key) : Option Key → List Range → List Range
  | none, _ => []
  | some cur, [] =>
    if endIsInf e || keyLtB cur e then [⟨cur, e, []⟩] else []
  | some cur, r :: rs =>
    if !endIsInf e && !keyLtB cur e then
      []
    else if !endIsInf r.endKey && !keyLtB cur r.endKey then
      getIncompleteAux e (some cur) rs
    else if keyLtB cur r.startKey then
      if !endIsInf e && !keyLtB r.startKey e then
        [⟨cur, e, []⟩]
      else
        ⟨cur, r.startKey, []⟩ :: getIncompleteAux e (bumpCursor cur r.endKey) rs
    else
      getIncompleteAux e (bumpCursor cur r.endKey) rs

/-- Modelled from the spec: `complement(start, end)` — the ordered
disjoint sub-intervals of `[s, e)` not yet confirmed; on an empty ledger
the result is `[s, e)` itself. -/
def RangeTree.getIncompleteRange (rt : RangeTree) (s e : Key) : List Range :=
  getIncompleteAux e (some s) rt.ranges

/-- Insert a range into the key-ordered list of confirmed ranges. -/
def insertRange (rg : Range) : List Range → List Range
  | [] => [rg]
  | r :: rs =>
    if keyLtB rg.startKey r.startKey then rg :: r :: rs else r :: insertRange rg rs

/-- Modelled from the spec: `confirm(start, end, files)` inserts a
confirmed range, idempotently (re-inserting an already recorded range
does not duplicate its files). -/
def RangeTree.putOk (rt : RangeTree) (s e : Key) (files : List File) : RangeTree :=
  if rt.ranges.any (fun r => r.startKey = s ∧ r.endKey = e) then rt
  else ⟨insertRange ⟨s, e, files⟩ rt.ranges⟩

/-- Flatten the confirmed files in key order (the `Ascend` walk that
builds the manifest's file list). -/
def RangeTree.flatFiles (rt : RangeTree) : List File :=
  rt.ranges.foldr (fun r acc => r.files ++ acc) []

/-- Whether a list of names contains a duplicate. -/
def hasDupNames : List String → Bool
  | [] => false
  | n :: ns => ns.contains n || hasDupNames ns

/-- Modelled from the spec: the duplicate-file audit scans the flattened
file list for name collisions; its outcome is a warning-level signal. -/
def RangeTree.checkDupFiles (rt : RangeTree) : Bool :=
  hasDupNames (rt.flatFiles.map File.name)

/-- kvrpcpb.LockInfo as far as the backup client looks at it: the lock
handed to `tikv.NewLock` and then to the lock resolver. -/
structure LockInfo where
  primaryLock : Key
  lockVersion : Nat
  key : Key
  lockTtl : Nat
  deriving DecidableEq, Repr

/-- errorpb.Error: each field is `true` when the corresponding sub-error
message is present (non-nil pointer in the proto).  `keyNotInRegion` and
`raftEntryTooLarge` stand for the region-error variants the classifier
does not treat as retryable. -/
structure RegionError where
  notLeader : Bool
  regionNotFound : Bool
  keyNotInRegion : Bool
  epochNotMatch : Bool
  serverIsBusy : Bool
  staleCommand : Bool
  storeNotMatch : Bool
  raftEntryTooLarge : Bool
  deriving DecidableEq, Repr

/-- The `Detail` oneof of backup.Error.  The modelled KvError keeps only
the `Locked` field the classifier inspects (its other fields are never
read by full.go). -/
inductive ErrorDetail where
  | kvError (locked : Option LockInfo)
  | regionError (re : RegionError)
  | clusterIdError (current request : Nat)
  deriving DecidableEq, Repr

/-- backup.Error: a message plus the `Detail` oneof; `detail = none`
models a response error whose detail is unset or of an unknown type
(the `default` arm of the Go type switch). -/
structure BackupError where
  msg : String
  detail : Option ErrorDetail
  deriving DecidableEq, Repr

/-- backup.BackupResponse. -/
structure BackupResponse where
  error : Option BackupError
  startKey : Key
  endKey : Key
  files : List File
  deriving DecidableEq, Repr

/-- backup.BackupRequest as constructed by full.go. -/
structure BackupRequest where
  clusterId : Nat
  startKey : Key
  endKey : Key
  startVersion : Nat
  endVersion : Nat
  path : String
  deriving DecidableEq, Repr

/-- metapb.Peer as far as the client looks at it (`GetStoreId`). -/
structure Peer where
  id : Nat
  storeId : Nat
  deriving DecidableEq, Repr

/-- The Go error values produced or propagated by full.go.  `external`
stands for an error value coming back from an external call (oracle
chosen); `errors.Trace` is the identity on the modelled value. -/
inductive Err where
  | external (tag : Nat)
  | kvUnexpected
  | regionUnexpected (re : RegionError)
  | respError (be : BackupError)
  | noRegionFound (key : Key)
  | backoffTimeout
  deriving DecidableEq, Repr

/-- Result of a fallible external call. -/
inductive Res (α : Type) where
  | ok (a : α)
  | error (e : Err)
  deriving DecidableEq, Repr

/-- Outcome of one `pdClient.GetRegion` call: a transport error, or a
possibly-absent leader peer. -/
inductive GetRegionResult where
  | err
  | found (leader : Option Peer)
  deriving DecidableEq, Repr

/-- Oracles for the external calls made by the fine-grained engine:
region lookup (indexed by the encoded key and the attempt number), the
per-store backup stream (the streamed responses, then SendBackup's own
return value), and lock resolution (`msBeforeExpired` plus an error). -/
structure FGEnv where
  getRegion : Key → Nat → GetRegionResult
  sendBackup : Nat → BackupRequest → List BackupResponse × Option Err
  resolveLocks : LockInfo → Int × Option Err

/-- onBackupResponse (full.go:244-302): classify one backup response
into (forwardable response, backoff milliseconds, fatal error), mirroring
the Go triple return. -/
def onBackupResponse (resolveLocks : LockInfo → Int × Option Err)
    (resp : BackupResponse) : Option BackupResponse × Int × Option Err :=
  match resp.error with
  | none => (some resp, 0, none)
  | some be =>
    match be.detail with
    | some (.kvError locked) =>
      match locked with
      | some lockErr =>
        let (msBeforeExpired, err1) := resolveLocks lockErr
        match err1 with
        | some e => (none, 0, some e)
        | none =>
          let backoffMs : Int := if 0 < msBeforeExpired then msBeforeExpired else 0
          (none, backoffMs, none)
      | none => (none, 0, some .kvUnexpected)
    | some (.regionError re) =>
      if !(re.epochNotMatch || re.notLeader || re.regionNotFound ||
           re.staleCommand || re.serverIsBusy || re.storeNotMatch) then
        (none, 0, some (.regionUnexpected re))
      else
        (none, 1000, none)
    | some (.clusterIdError _ _) => (none, 0, some (.respError be))
    | none => (none, 0, some (.respError be))

/-- codec.EncodeBytes (TiDB memcomparable byte encoding): split the key
into groups of 8, pad the last group with zeros and append a marker byte
`0xFF - padCount` after every group. -/
def encodeBytesAux (data : List Nat) : List Nat :=
  if h : data.length < 8 then
    data ++ List.replicate (8 - data.length) 0 ++ [255 - (8 - data.length)]
  else
    data.take 8 ++ [255] ++ encodeBytesAux (data.drop 8)
termination_by data.length
decreasing_by
  simp only [List.length_drop]
  omega

/-- The cluster's internal encoded ordering representation of a raw key
(`codec.EncodeBytes([]byte\x7b\x7d, key)`). -/
def encodeBytes (key : Key) : Key := encodeBytesAux key

/-- findRegionLeader's attempt loop (full.go:129-145): `i` is the current
attempt index, the second argument the attempts left; each failed
attempt (lookup error or no leader) sleeps `100*i` milliseconds, recorded
in the returned list. -/
def findRegionLeaderAux (getRegion : Key → Nat → GetRegionResult) (key : Key) :
    Nat → Nat → Res Peer × List Int
  | _, 0 => (.error (.noRegionFound key), [])
  | i, n + 1 =>
    match getRegion key i with
    | .found (some leader) => (.ok leader, [])
    | .found none =>
      let r := findRegionLeaderAux getRegion key (i + 1) n
      (r.1, (100 * (i : Int)) :: r.2)
    | .err =>
      let r := findRegionLeaderAux getRegion key (i + 1) n
      (r.1, (100 * (i : Int)) :: r.2)

/-- findRegionLeader (full.go:125-147): encode the key, then make at most
5 region lookups; also returns the sleeps performed. -/
def findRegionLeader (getRegion : Key → Nat → GetRegionResult) (key : Key) :
    Res Peer × List Int :=
  findRegionLeaderAux getRegion (encodeBytes key) 0 5

/-- The SendBackup response callback (full.go:328-341) folded over the
streamed responses: classify each response, abort on a fatal
classification, take the running maximum of the backoff contributions
and collect the forwarded (nil-error) responses in stream order. -/
def handleResponses (resolveLocks : LockInfo → Int × Option Err) :
    List BackupResponse → Int → Int × List BackupResponse × Option Err
  | [], mx => (mx, [], none)
  | resp :: rest, mx =>
    let (response, backoffMs, err) := onBackupResponse resolveLocks resp
    match err with
    | some e => (0, [], some e)
    | none =>
      let mx' := if mx < backoffMs then backoffMs else mx
      let r := handleResponses resolveLocks rest mx'
      match response with
      | some fwd => (r.1, fwd :: r.2.1, r.2.2)
      | none => (r.1, r.2.1, r.2.2)

/-- The per-sub-range backup request built by handleFineGrained
(full.go:316-323): the snapshot timestamp is both start and end version. -/
def fineGrainedRequest (clusterId backupTS : Nat) (path : String) (rg : Range) :
    BackupRequest :=
  ⟨clusterId, rg.startKey, rg.endKey, backupTS, backupTS, path⟩

/-- Result of handleFineGrained: the Go `(int, error)` pair, plus the
responses it forwarded to respCh and the request it constructed (if
leader resolution succeeded). -/
structure HandleResult where
  backoffMs : Int
  fwd : List BackupResponse
  err : Option Err
  req : Option BackupRequest
  deriving DecidableEq, Repr

/-- handleFineGrained (full.go:304-346): resolve the leader for the
sub-range's start key, send the per-range request to the leader's store
and classify every streamed response; a callback error or a SendBackup
error is returned with a zero backoff. -/
def handleFineGrained (env : FGEnv) (clusterId backupTS : Nat) (path : String)
    (rg : Range) : HandleResult :=
  match (findRegionLeader env.getRegion rg.startKey).1 with
  | .error pderr => ⟨0, [], some pderr, none⟩
  | .ok leader =>
    let req := fineGrainedRequest clusterId backupTS path rg
    let (resps, sendErr) := env.sendBackup leader.storeId req
    let (mx, fwd, cbErr) := handleResponses env.resolveLocks resps 0
    match cbErr with
    | some e => ⟨0, fwd, some e, some req⟩
    | none =>
      match sendErr with
      | some e => ⟨0, fwd, some e, some req⟩
      | none => ⟨mx, fwd, none, some req⟩

/-- The coordinator's respCh drain (full.go:212-226): put each forwarded
response into the ledger; a forwarded response with a non-nil Error hits
the `log.Fatal` branch, modelled by the `crashed` flag. -/
def coordPut : RangeTree → Bool → List BackupResponse → RangeTree × Bool
  | rt, crashed, [] => (rt, crashed)
  | rt, crashed, resp :: rest =>
    match resp.error with
    | some _ => coordPut rt true rest
    | none => coordPut (rt.putOk resp.startKey resp.endKey resp.files) crashed rest

/-- Outcome of one fine-grained round over the dispatched sub-ranges. -/
structure RoundResult where
  rt : RangeTree
  maxMs : Int
  err : Option Err
  crashed : Bool
  reqs : List BackupRequest
  deriving DecidableEq, Repr

/-- One fine-grained round (full.go:164-227), determinized: the worker
pool is replaced by processing the dispatched sub-ranges in order; a
worker error ends the round with that error (the errCh branch of the
select loop); otherwise the shared maximum backoff is updated exactly
when the worker's contribution is non-zero. -/
def roundStep (env : FGEnv) (clusterId backupTS : Nat) (path : String) :
    List Range → RangeTree → Int → RoundResult
  | [], rt, mx => ⟨rt, mx, none, false, []⟩
  | rg :: rest, rt, mx =>
    let h := handleFineGrained env clusterId backupTS path rg
    let (rt', crashed1) := coordPut rt false h.fwd
    match h.err with
    | some e => ⟨rt', mx, some e, crashed1, h.req.toList⟩
    | none =>
      let mx' := if h.backoffMs ≠ 0 && mx < h.backoffMs then h.backoffMs else mx
      let rres := roundStep env clusterId backupTS path rest rt' mx'
      ⟨rres.rt, rres.maxMs, rres.err, crashed1 || rres.crashed, h.req.toList ++ rres.reqs⟩

/-- Maximum total sleep time (in ms) for kv/cop commands (full.go:24). -/
def backupFineGrainedMaxBackoff : Int := 80000

/-- The tikv Backoffer as the backup client uses it, modelled from the
library's documented contract: sleeps accumulate into `totalSleep`, and
once the total reaches `maxSleep` the backoff call returns a timeout
error. -/
structure Backoffer where
  maxSleep : Int
  totalSleep : Int
  deriving DecidableEq, Repr

/-- Backoffer.BackoffWithMaxSleep: sleep `ms` more milliseconds; error
once the accumulated sleep reaches the budget. -/
def backoffWithMaxSleep (bo : Backoffer) (ms : Int) : Backoffer × Option Err :=
  let total := bo.totalSleep + ms
  if 0 < bo.maxSleep ∧ bo.maxSleep ≤ total then
    (⟨bo.maxSleep, total⟩, some .backoffTimeout)
  else
    (⟨bo.maxSleep, total⟩, none)

/-- Result of fineGrainedBackup: final ledger, final backoffer, the
returned error, whether the coordinator's log.Fatal branch fired, and
every per-sub-range request constructed along the way. -/
structure FGResult where
  rt : RangeTree
  bo : Backoffer
  err : Option Err
  crashed : Bool
  reqs : List BackupRequest
  deriving DecidableEq, Repr

/-- The retry loop of fineGrainedBackup (full.go:156-241) with explicit
fuel (`none` = fuel ran out before the loop terminated): a round whose
incomplete set is empty returns nil; a worker error is returned as is;
otherwise a non-zero round maximum backoff is slept through the
backoffer (whose timeout error is returned) and the loop repeats. -/
def fgLoop (env : FGEnv) (clusterId : Nat) (startKey endKey : Key)
    (backupTS : Nat) (path : String) :
    Nat → RangeTree → Backoffer → Bool → List BackupRequest → Option FGResult
  | 0, _, _, _, _ => none
  | n + 1, rt, bo, crashed, acc =>
    let incomplete := rt.getIncompleteRange startKey endKey
    if incomplete.isEmpty then
      some ⟨rt, bo, none, crashed, acc⟩
    else
      let round := roundStep env clusterId backupTS path incomplete rt 0
      let crashed' := crashed || round.crashed
      let acc' := acc ++ round.reqs
      match round.err with
      | some e => some ⟨round.rt, bo, some e, crashed', acc'⟩
      | none =>
        if round.maxMs ≠ 0 then
          match backoffWithMaxSleep bo round.maxMs with
          | (bo', some e) => some ⟨round.rt, bo', some e, crashed', acc'⟩
          | (bo', none) =>
            fgLoop env clusterId startKey endKey backupTS path n round.rt bo' crashed' acc'
        else
          fgLoop env clusterId startKey endKey backupTS path n round.rt bo crashed' acc'

/-- fineGrainedBackup (full.go:149-242): run the retry loop with a fresh
backoffer over the 80000 ms budget. -/
def fineGrainedBackup (env : FGEnv) (clusterId : Nat) (startKey endKey : Key)
    (backupTS : Nat) (path : String) (rangeTree : RangeTree) (fuel : Nat) :
    Option FGResult :=
  fgLoop env clusterId startKey endKey backupTS path fuel rangeTree
    ⟨backupFineGrainedMaxBackoff, 0⟩ false []

/-- Modelled from the spec: meta.EncodeTs (whose source file is not part
of src/) composes the (physical, logical) pair into the single version
number used as both start and end version. -/
def encodeTs (physical logical : Nat) : Nat := physical * 262144 + logical

/-- The two ledgers produced by the broadcast push-down phase. -/
structure PushResults where
  ok : RangeTree
  err : RangeTree
  deriving DecidableEq, Repr

/-- backup.BackupMeta: the manifest content. -/
structure BackupMeta where
  files : List File
  path : String
  deriving DecidableEq, Repr

/-- Oracles for BackupRange's external calls: timestamp allocation,
store listing (store ids), the broadcast push-down phase (whose own
source file is not part of src/), the fine-grained oracles, manifest
marshalling and the manifest file write. -/
structure BREnv where
  clusterID : Nat
  getTS : Res (Nat × Nat)
  getAllStores : Res (List Nat)
  pushBackup : BackupRequest → List Nat → Res PushResults
  fg : FGEnv
  marshal : BackupMeta → Res (List Nat)
  writeFile : Option Err
  fuel : Nat

/-- Observable outcome of one BackupRange call: the returned error,
whether the manifest file was written, whether the duplicate audit ran
and what it reported, and every backup request constructed. -/
structure BRResult where
  err : Option Err
  manifestWritten : Bool
  audited : Bool
  dupWarning : Bool
  reqs : List BackupRequest
  deriving DecidableEq, Repr

/-- BackupRange (full.go:52-123): allocate one timestamp, list the
stores, broadcast the push-down request, run the fine-grained engine on
the push-down ok ledger, then marshal and write the manifest and run the
duplicate-file audit; every error returns before the manifest write.
`none` models a non-returning execution (fuel ran out, or the
coordinator's log.Fatal fired). -/
def BackupRange (env : BREnv) (startKey endKey : Key) (path : String) :
    Option BRResult :=
  match env.getTS with
  | .error e => some ⟨some e, false, false, false, []⟩
  | .ok (p, l) =>
    let backupTS := encodeTs p l
    match env.getAllStores with
    | .error e => some ⟨some e, false, false, false, []⟩
    | .ok allStores =>
      let req : BackupRequest := ⟨env.clusterID, startKey, endKey, backupTS, backupTS, path⟩
      match env.pushBackup req allStores with
      | .error e => some ⟨some e, false, false, false, [req]⟩
      | .ok results =>
        match fineGrainedBackup env.fg env.clusterID startKey endKey backupTS path
            results.ok env.fuel with
        | none => none
        | some fg =>
          if fg.crashed then none
          else
            match fg.err with
            | some e => some ⟨some e, false, false, false, req :: fg.reqs⟩
            | none =>
              let backupMeta : BackupMeta := ⟨fg.rt.flatFiles, path⟩
              match env.marshal backupMeta with
              | .error e => some ⟨some e, false, false, false, req :: fg.reqs⟩
              | .ok _ =>
                match env.writeFile with
                | some e => some ⟨some e, false, false, false, req :: fg.reqs⟩
                | none => some ⟨none, true, true, fg.rt.checkDupFiles, req :: fg.reqs⟩

/-- Spec-side reference for the leader resolver: the first attempt index
(within the attempt budget) at which the lookup returns a leader. -/
def firstLeaderSpec (f : Nat → GetRegionResult) : Nat → Nat → Option (Nat × Peer)
  | _, 0 => none
  | i, n + 1 =>
    match f i with
    | .found (some p) => some (i, p)
    | .found none => firstLeaderSpec f (i + 1) n
    | .err => firstLeaderSpec f (i + 1) n

/-- Oracle for the C7 witness: the region lookup errors on attempt 0,
finds no leader on attempt 1 and finds a leader on attempt 2. -/
def getRegionW : Key → Nat → GetRegionResult := fun _ i =>
  if i = 0 then .err
  else if i = 1 then .found none
  else .found (some ⟨7, 42⟩)

/-- Trivial fine-grained oracles: lookups fail, streams are empty, the
resolver reports no remaining lifetime. -/
def fgEnvTriv : FGEnv :=
  ⟨fun _ _ => .err, fun _ _ => ([], none), fun _ => (0, none)⟩

/-- A response carrying a key-lock conflict whose resolution reports a
100000 ms remaining lifetime (see `fgEnvBigLock`). -/
def respBigLock : BackupResponse :=
  ⟨some ⟨"locked", some (.kvError (some ⟨[1], 1, [1], 10⟩))⟩, [1], [2], []⟩

/-- Fine-grained oracles under which every round classifies one lock
conflict whose resolver-reported remaining lifetime (100000 ms) exceeds
the whole backoff budget: the leader is always found, the stream is the
single lock-conflict response and lock resolution succeeds. -/
def fgEnvBigLock : FGEnv :=
  ⟨fun _ _ => .found (some ⟨1, 1⟩),
   fun _ _ => ([respBigLock], none),
   fun _ => (100000, none)⟩

/-- Push-down ok ledger for the C5 witness: [2,3) already confirmed. -/
def okTreeC5 : RangeTree := ⟨[⟨[2], [3], [⟨"a"⟩]⟩]⟩

/-- The cluster-identity error response used by the C5 witness. -/
def respCid : BackupResponse :=
  ⟨some ⟨"cluster id mismatch", some (.clusterIdError 1 2)⟩, [3], [5], []⟩

/-- A confirmed response for sub-range [1,2) (C5 witness). -/
def respOk12 : BackupResponse := ⟨none, [1], [2], [⟨"b"⟩]⟩

/-- Fine-grained oracles for the C5 witness: leaders resolve, the
sub-range starting at [1] succeeds and the one starting at [3] answers
with a cluster-identity error. -/
def fgEnvC5 : FGEnv :=
  ⟨fun _ _ => .found (some ⟨1, 1⟩),
   fun _ req => if req.startKey = [1] then ([respOk12], none) else ([respCid], none),
   fun _ => (0, none)⟩

/-- BackupRange oracles for the C5 witness. -/
def brEnvC5 : BREnv :=
  ⟨1, .ok (1, 0), .ok [1], fun _ _ => .ok ⟨okTreeC5, ⟨[]⟩⟩, fgEnvC5,
   fun _ => .ok [], none, 1⟩

/-- Fine-grained oracles for the C10 witness: region lookups always
fail, so no leader is ever found. -/
def fgEnvC10 : FGEnv :=
  ⟨fun _ _ => .err, fun _ _ => ([], none), fun _ => (0, none)⟩

/-- BackupRange oracles for the C10 witness. -/
def brEnvC10 : BREnv :=
  ⟨1, .ok (1, 0), .ok [1], fun _ _ => .ok ⟨⟨[]⟩, ⟨[]⟩⟩, fgEnvC10,
   fun _ => .ok [], none, 1⟩

/-- BackupRange oracles for the success-path witnesses: the push-down
ledger already covers the requested range, so the fine-grained engine
returns at once and the manifest is written. -/
def brEnvOk : BREnv :=
  ⟨1, .ok (1, 0), .ok [1],
   fun _ _ => .ok ⟨⟨[⟨[1], [2], [⟨"f"⟩]⟩]⟩, ⟨[]⟩⟩, fgEnvTriv,
   fun _ => .ok [], none, 1⟩

theorem firstLeaderSpec_le (f : Nat → GetRegionResult) :
    ∀ n i j p, firstLeaderSpec f i n = some (j, p) → i ≤ j := by
  intro n
  induction n with
  | zero => intro i j p h; simp [firstLeaderSpec] at h
  | succ n ih =>
    intro i j p h
    rw [firstLeaderSpec] at h
    rcases hf : f i with _ | ⟨_ | ⟨q⟩⟩ <;> rw [hf] at h
    · exact Nat.le_of_succ_le (ih (i + 1) j p h)
    · exact Nat.le_of_succ_le (ih (i + 1) j p h)
    · simp only [Option.some.injEq, Prod.mk.injEq] at h
      exact Nat.le_of_eq h.1

theorem findRegionLeaderAux_spec (getRegion : Key → Nat → GetRegionResult)
    (key : Key) :
    ∀ n i,
      (∀ j p, firstLeaderSpec (getRegion key) i n = some (j, p) →
        findRegionLeaderAux getRegion key i n =
          (.ok p, (List.range' i (j - i)).map (fun k => 100 * (k : Int)))) ∧
      (firstLeaderSpec (getRegion key) i n = none →
        findRegionLeaderAux getRegion key i n =
          (.error (.noRegionFound key),
            (List.range' i n).map (fun k => 100 * (k : Int)))) := by
  intro n
  induction n with
  | zero =>
    intro i
    constructor
    · intro j p h; simp [firstLeaderSpec] at h
    · intro _; simp [findRegionLeaderAux, List.range']
  | succ n ih =>
    intro i
    constructor
    · intro j p h
      rw [firstLeaderSpec] at h
      rw [findRegionLeaderAux]
      rcases hf : getRegion key i with _ | ⟨_ | ⟨q⟩⟩ <;> rw [hf] at h
      · have hij : i + 1 ≤ j := firstLeaderSpec_le _ _ _ _ _ h
        have hrec := (ih (i + 1)).1 j p h
        rw [hrec]
        have hj : j - i = (j - (i + 1)) + 1 := by omega
        rw [hj, List.range'_succ]
        simp
      · have hij : i + 1 ≤ j := firstLeaderSpec_le _ _ _ _ _ h
        have hrec := (ih (i + 1)).1 j p h
        rw [hrec]
        have hj : j - i = (j - (i + 1)) + 1 := by omega
        rw [hj, List.range'_succ]
        simp
      · rcases h with ⟨rfl, rfl⟩
        simp
    · intro h
      rw [firstLeaderSpec] at h
      rw [findRegionLeaderAux]
      rcases hf : getRegion key i with _ | ⟨_ | ⟨q⟩⟩ <;> rw [hf] at h
      · have hrec := (ih (i + 1)).2 h
        rw [hrec, List.range'_succ]
        simp
      · have hrec := (ih (i + 1)).2 h
        rw [hrec, List.range'_succ]
        simp
      · simp at h

/-- C7: findRegionLeader first converts the raw key to the encoded
ordering representation, then makes at most 5 lookup attempts, sleeping
a linearly increasing 100·i milliseconds after each failed attempt; it
returns the leader of the first successful attempt and a "can not find
region" error after exhausting all 5 attempts. -/
theorem findRegionLeader_spec (getRegion : Key → Nat → GetRegionResult)
    (key : Key) :
    (∀ j p, firstLeaderSpec (getRegion (encodeBytes key)) 0 5 = some (j, p) →
      findRegionLeader getRegion key =
        (.ok p, (List.range' 0 j).map (fun k => 100 * (k : Int)))) ∧
    (firstLeaderSpec (getRegion (encodeBytes key)) 0 5 = none →
      findRegionLeader getRegion key =
        (.error (.noRegionFound (encodeBytes key)),
          (List.range' 0 5).map (fun k => 100 * (k : Int)))) := by
  have h := findRegionLeaderAux_spec getRegion (encodeBytes key) 5 0
  constructor
  · intro j p hj
    have := h.1 j p hj
    simpa [findRegionLeader] using this
  · intro hn
    have := h.2 hn
    simpa [findRegionLeader] using this

theorem findRegionLeader_spec_witness :
    findRegionLeader getRegionW [9] =
      (.ok ⟨7, 42⟩, (List.range' 0 2).map (fun k => 100 * (k : Int))) :=
  (findRegionLeader_spec getRegionW [9]).1 2 ⟨7, 42⟩ (by decide)

/-- C3: for every backup response carrying a key-lock conflict the
classifier resolves the reported lock; when the resolver reports a
remaining lifetime `ms` with no error, the classifier returns backoff
`ms` when `ms > 0` and backoff 0 otherwise, with no error and no
forwarded response. -/
theorem onBackupResponse_lock_conflict
    (resolveLocks : LockInfo → Int × Option Err) (resp : BackupResponse)
    (be : BackupError) (lockErr : LockInfo) (ms : Int)
    (hresp : resp.error = some be)
    (hdet : be.detail = some (.kvError (some lockErr)))
    (hres : resolveLocks lockErr = (ms, none)) :
    onBackupResponse resolveLocks resp = (none, (if 0 < ms then ms else 0), none) := by
  simp [onBackupResponse, hresp, hdet, hres]

theorem onBackupResponse_lock_conflict_witness :
    onBackupResponse (fun _ => ((500 : Int), none))
        ⟨some ⟨"locked", some (.kvError (some ⟨[1], 1, [2], 10⟩))⟩, [1], [2], []⟩ =
      (none, 500, none) := by
  have h := onBackupResponse_lock_conflict (fun _ => ((500 : Int), none))
    ⟨some ⟨"locked", some (.kvError (some ⟨[1], 1, [2], 10⟩))⟩, [1], [2], []⟩
    ⟨"locked", some (.kvError (some ⟨[1], 1, [2], 10⟩))⟩ ⟨[1], 1, [2], 10⟩ 500
    rfl rfl rfl
  simpa using h

/-- C4: for every backup response carrying a region error, the
classifier returns the fixed 1000 ms backoff and no error exactly when
one of the six retryable kinds (NotLeader, EpochNotMatch,
RegionNotFound, StaleCommand, ServerIsBusy, StoreNotMatch) is present,
and a fatal error for every other region error; no response is
forwarded either way. -/
theorem onBackupResponse_region_error
    (resolveLocks : LockInfo → Int × Option Err) (resp : BackupResponse)
    (be : BackupError) (re : RegionError)
    (hresp : resp.error = some be)
    (hdet : be.detail = some (.regionError re)) :
    onBackupResponse resolveLocks resp =
      (if re.notLeader || re.epochNotMatch || re.regionNotFound ||
          re.staleCommand || re.serverIsBusy || re.storeNotMatch
       then (none, 1000, none)
       else (none, 0, some (.regionUnexpected re))) := by
  simp only [onBackupResponse, hresp, hdet]
  rcases re with ⟨nl, rnf, knir, enm, sib, sc, snm, retl⟩
  cases nl <;> cases rnf <;> cases enm <;> cases sib <;> cases sc <;> cases snm <;> simp

theorem onBackupResponse_forwarded (f : LockInfo → Int × Option Err)
    (resp r : BackupResponse) (h : (onBackupResponse f resp).1 = some r) :
    r.error = none ∧ r = resp := by
  rcases hre : resp.error with _ | be
  · simp only [onBackupResponse, hre] at h
    simp at h
    subst h
    exact ⟨hre, rfl⟩
  · exfalso
    rcases hd : be.detail with _ | d
    · simp [onBackupResponse, hre, hd] at h
    · rcases d with locked | re | ⟨c, q⟩
      · rcases locked with _ | lockErr
        · simp [onBackupResponse, hre, hd] at h
        · rcases hrl : f lockErr with ⟨ms, err1⟩
          rcases err1 with _ | e <;> simp [onBackupResponse, hre, hd, hrl] at h
      · simp only [onBackupResponse, hre, hd] at h
        split at h <;> simp at h
      · simp [onBackupResponse, hre, hd] at h

theorem handleResponses_fwd_none (f : LockInfo → Int × Option Err) :
    ∀ resps mx r, r ∈ (handleResponses f resps mx).2.1 → r.error = none := by
  intro resps
  induction resps with
  | nil => intro mx r h; simp [handleResponses] at h
  | cons x rest ih =>
    intro mx r h
    rw [handleResponses] at h
    rcases h0 : onBackupResponse f x with ⟨response, bms, err⟩
    rw [h0] at h
    rcases err with _ | e
    · rcases response with _ | fwd
      · simp at h
        exact ih _ r h
      · simp at h
        rcases h with h | h
        · subst h
          exact (onBackupResponse_forwarded f x r (by rw [h0])).1
        · exact ih _ r h
    · simp at h

theorem handleFineGrained_fwd_none (env : FGEnv) (cid ts : Nat) (path : String)
    (rg : Range) (r : BackupResponse)
    (h : r ∈ (handleFineGrained env cid ts path rg).fwd) : r.error = none := by
  rcases hl : (findRegionLeader env.getRegion rg.startKey).1 with leader | e
  · rcases hs : env.sendBackup leader.storeId
        (fineGrainedRequest cid ts path rg) with ⟨resps, sendErr⟩
    rcases hr : handleResponses env.resolveLocks resps 0 with ⟨mx, fwd, cbErr⟩
    have hmem : r ∈ fwd := by
      rcases cbErr with _ | e' <;> rcases sendErr with _ | e'' <;>
        simpa [handleFineGrained, hl, hs, hr] using h
    have hmem2 : r ∈ (handleResponses env.resolveLocks resps 0).2.1 := by
      rw [hr]; exact hmem
    exact handleResponses_fwd_none env.resolveLocks resps 0 r hmem2
  · simp [handleFineGrained, hl] at h

theorem coordPut_no_crash :
    ∀ fwd (rt : RangeTree) (crashed : Bool),
      (∀ r ∈ fwd, r.error = none) → (coordPut rt crashed fwd).2 = crashed := by
  intro fwd
  induction fwd with
  | nil => intro rt c _; rfl
  | cons x rest ih =>
    intro rt c h
    have hx : x.error = none := h x (by simp)
    rw [coordPut, hx]
    exact ih _ c (fun r hr => h r (by simp [hr]))

theorem roundStep_no_crash (env : FGEnv) (cid ts : Nat) (path : String) :
    ∀ rgs (rt : RangeTree) (mx : Int),
      (roundStep env cid ts path rgs rt mx).crashed = false := by
  intro rgs
  induction rgs with
  | nil => intro rt mx; rfl
  | cons rg rest ih =>
    intro rt mx
    have hc : (coordPut rt false (handleFineGrained env cid ts path rg).fwd).2 = false :=
      coordPut_no_crash _ rt false
        (fun r hr => handleFineGrained_fwd_none env cid ts path rg r hr)
    rcases hh : handleFineGrained env cid ts path rg with ⟨bms1, fwd1, err1, req1⟩
    rw [hh] at hc
    rcases hcp : coordPut rt false fwd1 with ⟨rt2, cr2⟩
    rw [hcp] at hc
    have hcr2 : cr2 = false := hc
    subst hcr2
    rcases err1 with _ | e
    · simp [roundStep, hh, hcp, ih]
    · simp [roundStep, hh, hcp]

theorem fgLoop_no_crash (env : FGEnv) (cid : Nat) (sk ek : Key) (ts : Nat)
    (path : String) :
    ∀ fuel (rt : RangeTree) (bo : Backoffer) (crashed : Bool)
      (acc : List BackupRequest) (res : FGResult),
      fgLoop env cid sk ek ts path fuel rt bo crashed acc = some res →
      res.crashed = crashed := by
  intro fuel
  induction fuel with
  | zero => intro rt bo c acc res h; simp [fgLoop] at h
  | succ n ih =>
    intro rt bo c acc res h
    cases hinc : (rt.getIncompleteRange sk ek).isEmpty
    · have hrs := roundStep_no_crash env cid ts path
        (rt.getIncompleteRange sk ek) rt 0
      simp only [fgLoop, hinc] at h
      simp only [Bool.false_eq_true, if_false] at h
      rcases hround : roundStep env cid ts path (rt.getIncompleteRange sk ek) rt 0
        with ⟨rrt, rmx, rerr, rcr, rreqs⟩
      rw [hround] at h hrs
      have hcr : rcr = false := hrs
      subst hcr
      rcases rerr with _ | e
      · simp only at h
        by_cases hmx : rmx = 0
        · rw [if_neg (by simpa using hmx)] at h
          have := ih _ _ _ _ _ h
          simpa using this
        · rw [if_pos (by simpa using hmx)] at h
          rcases hbo : backoffWithMaxSleep bo rmx with ⟨bo', berr⟩
          rw [hbo] at h
          rcases berr with _ | e2
          · have := ih _ _ _ _ _ h
            simpa using this
          · simp only [Option.some.injEq] at h
            subst h
            simp
      · simp only [Option.some.injEq] at h
        subst h
        simp
    · simp only [fgLoop, hinc, if_true] at h
      simp only [Option.some.injEq] at h
      subst h
      rfl

/-- C9: the classifier forwards a response only when its `Error` field is
nil, so every response put on the coordinator's response channel during a
fine-grained round carries no error and the coordinator's process-fatal
branch on a forwarded response with a non-nil `Error` never fires. -/
theorem fineGrained_forward_nil_error (env : FGEnv) (cid ts : Nat) (path : String) :
    (∀ rg r, r ∈ (handleFineGrained env cid ts path rg).fwd → r.error = none) ∧
    (∀ sk ek rt fuel res,
      fineGrainedBackup env cid sk ek ts path rt fuel = some res →
      res.crashed = false) := by
  constructor
  · intro rg r hr
    exact handleFineGrained_fwd_none env cid ts path rg r hr
  · intro sk ek rt fuel res h
    exact fgLoop_no_crash env cid sk ek ts path fuel rt
      ⟨backupFineGrainedMaxBackoff, 0⟩ false [] res h

theorem fineGrained_forward_nil_error_witness :
    FGResult.crashed ⟨⟨[]⟩, ⟨backupFineGrainedMaxBackoff, 0⟩, none, false, []⟩ = false :=
  (fineGrained_forward_nil_error fgEnvTriv 1 5 "p").2 [1] [1] ⟨[]⟩ 1
    ⟨⟨[]⟩, ⟨backupFineGrainedMaxBackoff, 0⟩, none, false, []⟩ (by decide)

theorem backoffWithMaxSleep_some (bo : Backoffer) (ms : Int) (bo' : Backoffer)
    (e : Err) (h : backoffWithMaxSleep bo ms = (bo', some e)) :
    e = .backoffTimeout := by
  simp only [backoffWithMaxSleep] at h
  split at h <;> simp_all

theorem fgLoop_result (env : FGEnv) (cid : Nat) (sk ek : Key) (ts : Nat)
    (path : String) :
    ∀ fuel (rt : RangeTree) (bo : Backoffer) (crashed : Bool)
      (acc : List BackupRequest) (res : FGResult),
      fgLoop env cid sk ek ts path fuel rt bo crashed acc = some res →
      (res.err = none → (res.rt.getIncompleteRange sk ek).isEmpty = true) ∧
      (∀ e, res.err = some e →
        e = .backoffTimeout ∨
        ∃ rt0, (rt0.getIncompleteRange sk ek).isEmpty = false ∧
          (roundStep env cid ts path (rt0.getIncompleteRange sk ek) rt0 0).err = some e) := by
  intro fuel
  induction fuel with
  | zero => intro rt bo c acc res h; simp [fgLoop] at h
  | succ n ih =>
    intro rt bo c acc res h
    cases hinc : (rt.getIncompleteRange sk ek).isEmpty
    · simp only [fgLoop, hinc] at h
      simp only [Bool.false_eq_true, if_false] at h
      rcases hround : roundStep env cid ts path (rt.getIncompleteRange sk ek) rt 0
        with ⟨rrt, rmx, rerr, rcr, rreqs⟩
      rw [hround] at h
      rcases rerr with _ | e
      · simp only at h
        by_cases hmx : rmx = 0
        · rw [if_neg (by simpa using hmx)] at h
          exact ih _ _ _ _ _ h
        · rw [if_pos (by simpa using hmx)] at h
          rcases hbo : backoffWithMaxSleep bo rmx with ⟨bo', berr⟩
          rw [hbo] at h
          rcases berr with _ | e2
          · exact ih _ _ _ _ _ h
          · simp only [Option.some.injEq] at h
            subst h
            constructor
            · intro hnone; simp at hnone
            · intro e3 he
              simp only [Option.some.injEq] at he
              subst he
              exact Or.inl (backoffWithMaxSleep_some bo rmx bo' e2 hbo)
      · simp only [Option.some.injEq] at h
        subst h
        constructor
        · intro hnone; simp at hnone
        · intro e2 he
          simp only [Option.some.injEq] at he
          subst he
          exact Or.inr ⟨rt, hinc, by rw [hround]⟩
    · simp only [fgLoop, hinc, if_true] at h
      simp only [Option.some.injEq] at h
      subst h
      constructor
      · intro _; exact hinc
      · intro e he; simp at he

/-- C2 (amended): the retry loop terminates in exactly three ways — it
returns nil as soon as a round begins with an empty incomplete-range set
(in particular without dispatching any work when the ledger already
leaves nothing incomplete), it returns a worker's error as soon as a
round reports one, and it returns the backoff-budget timeout error when
the accumulated backoff reaches the budget; otherwise it proceeds to
another round. -/
theorem fineGrainedBackup_terminations (env : FGEnv) (cid : Nat) (sk ek : Key)
    (ts : Nat) (path : String) :
    (∀ (n : Nat) (rt : RangeTree) (bo : Backoffer) (crashed : Bool)
       (acc : List BackupRequest),
      (rt.getIncompleteRange sk ek).isEmpty = true →
      fgLoop env cid sk ek ts path (n + 1) rt bo crashed acc =
        some ⟨rt, bo, none, crashed, acc⟩) ∧
    (∀ fuel (rt : RangeTree) (res : FGResult),
      fineGrainedBackup env cid sk ek ts path rt fuel = some res →
      (res.err = none → (res.rt.getIncompleteRange sk ek).isEmpty = true) ∧
      (∀ e, res.err = some e →
        e = .backoffTimeout ∨
        ∃ rt0, (rt0.getIncompleteRange sk ek).isEmpty = false ∧
          (roundStep env cid ts path (rt0.getIncompleteRange sk ek) rt0 0).err =
            some e)) := by
  constructor
  · intro n rt bo crashed acc h
    simp [fgLoop, h]
  · intro fuel rt res h
    exact fgLoop_result env cid sk ek ts path fuel rt
      ⟨backupFineGrainedMaxBackoff, 0⟩ false [] res h

theorem fineGrainedBackup_terminations_witness :
    fgLoop fgEnvTriv 1 [1] [1] 5 "p" 1 ⟨[]⟩ ⟨backupFineGrainedMaxBackoff, 0⟩
        false [] =
      some ⟨⟨[]⟩, ⟨backupFineGrainedMaxBackoff, 0⟩, none, false, []⟩ :=
  (fineGrainedBackup_terminations fgEnvTriv 1 [1] [1] 5 "p").1 0 ⟨[]⟩
    ⟨backupFineGrainedMaxBackoff, 0⟩ false [] (by decide)

/-- C2 counterexample: under `fgEnvBigLock` the retry loop terminates
with an error although no worker reported an error in any round — the
single round classifies its lock-conflict response as retryable (the
round's error is nil), and the loop returns the backoff-budget timeout
error instead of proceeding to another round. -/
theorem fineGrainedBackup_timeout_counterexample :
    fineGrainedBackup fgEnvBigLock 1 [1] [2] 5 "p" ⟨[]⟩ 2 =
      some ⟨⟨[]⟩, ⟨80000, 100000⟩, some .backoffTimeout, false,
        [⟨1, [1], [2], 5, 5, "p"⟩]⟩ ∧
    (roundStep fgEnvBigLock 1 5 "p"
        (RangeTree.getIncompleteRange ⟨[]⟩ [1] [2]) ⟨[]⟩ 0).err = none := by
  decide

theorem roundStep_maxMs_ge (env : FGEnv) (cid ts : Nat) (path : String) :
    ∀ rgs (rt : RangeTree) (mx : Int),
      mx ≤ (roundStep env cid ts path rgs rt mx).maxMs := by
  intro rgs
  induction rgs with
  | nil => intro rt mx; exact le_refl mx
  | cons rg rest ih =>
    intro rt mx
    rcases hh : handleFineGrained env cid ts path rg with ⟨bms1, fwd1, err1, req1⟩
    rcases hcp : coordPut rt false fwd1 with ⟨rt2, cr2⟩
    rcases err1 with _ | e
    · have h1 : mx ≤ (if bms1 ≠ 0 && mx < bms1 then bms1 else mx) := by
        split
        · rename_i hcond
          simp at hcond
          exact le_of_lt hcond.2
        · exact le_refl mx
      have h2 := ih rt2 (if bms1 ≠ 0 && mx < bms1 then bms1 else mx)
      simp only [roundStep, hh, hcp]
      exact le_trans h1 h2
    · simp [roundStep, hh, hcp]

theorem fgLoop_total_sleep (env : FGEnv) (cid : Nat) (sk ek : Key) (ts : Nat)
    (path : String) :
    ∀ fuel (rt : RangeTree) (bo : Backoffer) (crashed : Bool)
      (acc : List BackupRequest) (res : FGResult),
      fgLoop env cid sk ek ts path fuel rt bo crashed acc = some res →
      res.bo.maxSleep = bo.maxSleep ∧ bo.totalSleep ≤ res.bo.totalSleep ∧
      (0 < bo.maxSleep → bo.totalSleep < bo.maxSleep →
        res.err ≠ some .backoffTimeout → res.bo.totalSleep < bo.maxSleep) := by
  intro fuel
  induction fuel with
  | zero => intro rt bo c acc res h; simp [fgLoop] at h
  | succ n ih =>
    intro rt bo c acc res h
    cases hinc : (rt.getIncompleteRange sk ek).isEmpty
    · simp only [fgLoop, hinc] at h
      simp only [Bool.false_eq_true, if_false] at h
      have hge := roundStep_maxMs_ge env cid ts path (rt.getIncompleteRange sk ek) rt 0
      rcases hround : roundStep env cid ts path (rt.getIncompleteRange sk ek) rt 0
        with ⟨rrt, rmx, rerr, rcr, rreqs⟩
      rw [hround] at h hge
      simp only at hge
      rcases rerr with _ | e
      · simp only at h
        by_cases hmx : rmx = 0
        · rw [if_neg (by simpa using hmx)] at h
          exact ih _ _ _ _ _ h
        · rw [if_pos (by simpa using hmx)] at h
          by_cases hto : 0 < bo.maxSleep ∧ bo.maxSleep ≤ bo.totalSleep + rmx
          · have hbo : backoffWithMaxSleep bo rmx =
                (⟨bo.maxSleep, bo.totalSleep + rmx⟩, some .backoffTimeout) := by
              simp [backoffWithMaxSleep, hto]
            rw [hbo] at h
            simp only [Option.some.injEq] at h
            subst h
            refine ⟨rfl, by simp only; omega, ?_⟩
            intro _ _ hne
            exact absurd rfl hne
          · have hbo : backoffWithMaxSleep bo rmx =
                (⟨bo.maxSleep, bo.totalSleep + rmx⟩, none) := by
              simp only [backoffWithMaxSleep]
              rw [if_neg hto]
            rw [hbo] at h
            have hrec := ih _ _ _ _ _ h
            refine ⟨hrec.1, ?_, ?_⟩
            · have h2 := hrec.2.1
              simp only at h2
              omega
            · intro hpos hlt hne
              have hlt2 : bo.totalSleep + rmx < bo.maxSleep := by
                by_contra hc
                push_neg at hc
                exact hto ⟨hpos, hc⟩
              have := hrec.2.2 hpos (by simpa using hlt2) hne
              simpa using this
      · simp only [Option.some.injEq] at h
        subst h
        exact ⟨rfl, le_refl _, fun _ hlt _ => hlt⟩
    · simp only [fgLoop, hinc, if_true] at h
      simp only [Option.some.injEq] at h
      subst h
      exact ⟨rfl, le_refl _, fun _ hlt _ => hlt⟩

/-- C6: at the end of a round whose workers all succeeded, a zero round
maximum starts the next round immediately with the backoffer untouched;
a non-zero round maximum is slept in full (the backoffer's total grows by
exactly the round maximum) before the next round; reaching the budget at
that sleep terminates the loop with the fatal timeout error; the budget
is the configured 80000 ms ceiling, fineGrainedBackup starts from a zero
total, and any outcome other than the timeout error keeps the
accumulated total strictly below the ceiling. -/
theorem fineGrainedBackup_backoff_budget (env : FGEnv) (cid : Nat)
    (sk ek : Key) (ts : Nat) (path : String) :
    backupFineGrainedMaxBackoff = 80000 ∧
    (∀ (n : Nat) (rt : RangeTree) (bo : Backoffer) (crashed : Bool)
       (acc : List BackupRequest) (rrt : RangeTree) (rmx : Int) (rcr : Bool)
       (rreqs : List BackupRequest),
      (rt.getIncompleteRange sk ek).isEmpty = false →
      roundStep env cid ts path (rt.getIncompleteRange sk ek) rt 0 =
        ⟨rrt, rmx, none, rcr, rreqs⟩ →
      (rmx = 0 →
        fgLoop env cid sk ek ts path (n + 1) rt bo crashed acc =
          fgLoop env cid sk ek ts path n rrt bo (crashed || rcr) (acc ++ rreqs)) ∧
      (rmx ≠ 0 → ¬(0 < bo.maxSleep ∧ bo.maxSleep ≤ bo.totalSleep + rmx) →
        fgLoop env cid sk ek ts path (n + 1) rt bo crashed acc =
          fgLoop env cid sk ek ts path n rrt ⟨bo.maxSleep, bo.totalSleep + rmx⟩
            (crashed || rcr) (acc ++ rreqs)) ∧
      (rmx ≠ 0 → 0 < bo.maxSleep → bo.maxSleep ≤ bo.totalSleep + rmx →
        fgLoop env cid sk ek ts path (n + 1) rt bo crashed acc =
          some ⟨rrt, ⟨bo.maxSleep, bo.totalSleep + rmx⟩, some .backoffTimeout,
            crashed || rcr, acc ++ rreqs⟩)) ∧
    (∀ fuel (rt : RangeTree) (res : FGResult),
      fineGrainedBackup env cid sk ek ts path rt fuel = some res →
      res.bo.maxSleep = backupFineGrainedMaxBackoff ∧
      (res.err ≠ some .backoffTimeout →
        res.bo.totalSleep < backupFineGrainedMaxBackoff)) := by
  refine ⟨rfl, ?_, ?_⟩
  · intro n rt bo crashed acc rrt rmx rcr rreqs hne hround
    refine ⟨?_, ?_, ?_⟩
    · intro hmx
      subst hmx
      simp [fgLoop, hne, hround]
    · intro hmx hok
      have hbo : backoffWithMaxSleep bo rmx =
          (⟨bo.maxSleep, bo.totalSleep + rmx⟩, none) := by
        simp only [backoffWithMaxSleep]
        rw [if_neg hok]
      simp [fgLoop, hne, hround, hmx, hbo]
    · intro hmx hpos hle
      have hbo : backoffWithMaxSleep bo rmx =
          (⟨bo.maxSleep, bo.totalSleep + rmx⟩, some .backoffTimeout) := by
        simp [backoffWithMaxSleep, hpos, hle]
      simp [fgLoop, hne, hround, hmx, hbo]
  · intro fuel rt res h
    have hts := fgLoop_total_sleep env cid sk ek ts path fuel rt
      ⟨backupFineGrainedMaxBackoff, 0⟩ false [] res h
    refine ⟨hts.1, ?_⟩
    intro hne
    exact hts.2.2 (by decide) (by decide) hne

theorem fineGrainedBackup_backoff_budget_witness :
    fgLoop fgEnvBigLock 1 [1] [2] 5 "p" 1 ⟨[]⟩ ⟨80000, 0⟩ false [] =
      some ⟨⟨[]⟩, ⟨(80000 : Int), (0 : Int) + 100000⟩, some .backoffTimeout,
        false || false, [] ++ [⟨1, [1], [2], 5, 5, "p"⟩]⟩ :=
  ((fineGrainedBackup_backoff_budget fgEnvBigLock 1 [1] [2] 5 "p").2.1 0 ⟨[]⟩
      ⟨80000, 0⟩ false [] ⟨[]⟩ 100000 false [⟨1, [1], [2], 5, 5, "p"⟩]
      (by decide) (by decide)).2.2 (by decide) (by decide) (by decide)

theorem onBackupResponse_region_error_witness :
    onBackupResponse (fun _ => ((0 : Int), none))
        ⟨some ⟨"region", some (.regionError
          ⟨true, false, false, false, false, false, false, false⟩)⟩, [1], [2], []⟩ =
      (none, 1000, none) := by
  have h := onBackupResponse_region_error (fun _ => ((0 : Int), none))
    ⟨some ⟨"region", some (.regionError
      ⟨true, false, false, false, false, false, false, false⟩)⟩, [1], [2], []⟩
    ⟨"region", some (.regionError
      ⟨true, false, false, false, false, false, false, false⟩)⟩
    ⟨true, false, false, false, false, false, false, false⟩ rfl rfl
  simpa using h

theorem firstLeaderSpec_none (f : Nat → GetRegionResult) :
    ∀ n i, (∀ j, i ≤ j → j < i + n → f j = .err ∨ f j = .found none) →
      firstLeaderSpec f i n = none := by
  intro n
  induction n with
  | zero => intro i _; rfl
  | succ n ih =>
    intro i h
    have hi : f i = .err ∨ f i = .found none := h i (le_refl i) (by omega)
    rw [firstLeaderSpec]
    rcases hi with hi | hi <;> rw [hi] <;>
      exact ih (i + 1) (fun j hj1 hj2 => h j (by omega) (by omega))

theorem onBackupResponse_fatal_resp (f : LockInfo → Int × Option Err)
    (resp : BackupResponse) (be : BackupError)
    (hresp : resp.error = some be)
    (hdet : (∃ c q, be.detail = some (.clusterIdError c q)) ∨ be.detail = none) :
    onBackupResponse f resp = (none, 0, some (.respError be)) := by
  rcases hdet with ⟨c, q, hd⟩ | hd <;> simp [onBackupResponse, hresp, hd]

theorem handleResponses_first_err (f : LockInfo → Int × Option Err) :
    ∀ (spre : List BackupResponse) (r : BackupResponse)
      (spost : List BackupResponse) (mx : Int) (e : Err),
      (∀ x ∈ spre, (onBackupResponse f x).2.2 = none) →
      (onBackupResponse f r).2.2 = some e →
      (handleResponses f (spre ++ r :: spost) mx).2.2 = some e := by
  intro spre
  induction spre with
  | nil =>
    intro r spost mx e _ hr
    rcases h0 : onBackupResponse f r with ⟨resp0, bms0, err0⟩
    rw [h0] at hr
    simp only at hr
    subst hr
    simp [handleResponses, h0]
  | cons x rest ih =>
    intro r spost mx e hpre hr
    have hx : (onBackupResponse f x).2.2 = none := hpre x (by simp)
    rcases h0 : onBackupResponse f x with ⟨resp0, bms0, err0⟩
    rw [h0] at hx
    simp only at hx
    subst hx
    have hrest := ih r spost (if mx < bms0 then bms0 else mx) e
      (fun y hy => hpre y (by simp [hy])) hr
    rcases resp0 with _ | fwd0 <;> simpa [handleResponses, h0] using hrest

theorem handleFineGrained_cb_err (env : FGEnv) (cid ts : Nat) (path : String)
    (rg : Range) (leader : Peer) (spre spost : List BackupResponse)
    (r : BackupResponse) (trans : Option Err) (e : Err)
    (hl : (findRegionLeader env.getRegion rg.startKey).1 = .ok leader)
    (hs : env.sendBackup leader.storeId (fineGrainedRequest cid ts path rg) =
      (spre ++ r :: spost, trans))
    (hpre : ∀ x ∈ spre, (onBackupResponse env.resolveLocks x).2.2 = none)
    (hr : (onBackupResponse env.resolveLocks r).2.2 = some e) :
    (handleFineGrained env cid ts path rg).err = some e ∧
    (handleFineGrained env cid ts path rg).backoffMs = 0 := by
  have hcb := handleResponses_first_err env.resolveLocks spre r spost 0 e hpre hr
  rcases hhr : handleResponses env.resolveLocks (spre ++ r :: spost) 0
    with ⟨mx, fwd, cbErr⟩
  rw [hhr] at hcb
  simp only at hcb
  subst hcb
  constructor <;> simp [handleFineGrained, hl, hs, hhr]

theorem handleFineGrained_leader_err (env : FGEnv) (cid ts : Nat) (path : String)
    (rg : Range) (e : Err)
    (hl : (findRegionLeader env.getRegion rg.startKey).1 = .error e) :
    handleFineGrained env cid ts path rg = ⟨0, [], some e, none⟩ := by
  simp [handleFineGrained, hl]

theorem roundStep_first_err (env : FGEnv) (cid ts : Nat) (path : String) :
    ∀ (pre : List Range) (rg : Range) (post : List Range) (rt : RangeTree)
      (mx : Int) (e : Err),
      (∀ x ∈ pre, (handleFineGrained env cid ts path x).err = none) →
      (handleFineGrained env cid ts path rg).err = some e →
      (roundStep env cid ts path (pre ++ rg :: post) rt mx).err = some e := by
  intro pre
  induction pre with
  | nil =>
    intro rg post rt mx e _ hrg
    rcases hh : handleFineGrained env cid ts path rg with ⟨bms1, fwd1, err1, req1⟩
    rw [hh] at hrg
    simp only at hrg
    subst hrg
    rcases hcp : coordPut rt false fwd1 with ⟨rt2, cr2⟩
    simp [roundStep, hh, hcp]
  | cons x rest ih =>
    intro rg post rt mx e hpre hrg
    have hx : (handleFineGrained env cid ts path x).err = none := hpre x (by simp)
    rcases hh : handleFineGrained env cid ts path x with ⟨bms1, fwd1, err1, req1⟩
    rw [hh] at hx
    simp only at hx
    subst hx
    rcases hcp : coordPut rt false fwd1 with ⟨rt2, cr2⟩
    have hrest := ih rg post rt2 (if bms1 ≠ 0 && mx < bms1 then bms1 else mx) e
      (fun y hy => hpre y (by simp [hy])) hrg
    simpa [roundStep, hh, hcp] using hrest

theorem fgLoop_round_err_exit (env : FGEnv) (cid : Nat) (sk ek : Key) (ts : Nat)
    (path : String) (n : Nat) (rt : RangeTree) (bo : Backoffer) (crashed : Bool)
    (acc : List BackupRequest) (e : Err)
    (hne : (rt.getIncompleteRange sk ek).isEmpty = false)
    (hr : (roundStep env cid ts path (rt.getIncompleteRange sk ek) rt 0).err =
      some e) :
    ∃ rt2 crashed2 acc2,
      fgLoop env cid sk ek ts path (n + 1) rt bo crashed acc =
        some ⟨rt2, bo, some e, crashed2, acc2⟩ := by
  rcases hround : roundStep env cid ts path (rt.getIncompleteRange sk ek) rt 0
    with ⟨rrt, rmx, rerr, rcr, rreqs⟩
  rw [hround] at hr
  simp only at hr
  subst hr
  exact ⟨rrt, crashed || rcr, acc ++ rreqs, by simp [fgLoop, hne, hround]⟩

theorem BackupRange_fg_err (env : BREnv) (sk ek : Key) (path : String)
    (p l : Nat) (stores : List Nat) (results : PushResults) (res : FGResult)
    (e : Err)
    (h1 : env.getTS = .ok (p, l))
    (h2 : env.getAllStores = .ok stores)
    (h3 : env.pushBackup
      ⟨env.clusterID, sk, ek, encodeTs p l, encodeTs p l, path⟩ stores =
      .ok results)
    (h4 : fineGrainedBackup env.fg env.clusterID sk ek (encodeTs p l) path
      results.ok env.fuel = some res)
    (h5 : res.crashed = false)
    (h6 : res.err = some e) :
    BackupRange env sk ek path =
      some ⟨some e, false, false, false,
        ⟨env.clusterID, sk, ek, encodeTs p l, encodeTs p l, path⟩ :: res.reqs⟩ := by
  simp [BackupRange, h1, h2, h3, h4, h5, h6]

/-- C5: a cluster-identity mismatch or an unrecognized error in a
sub-range's backup response is classified as fatal by the classifier
(non-nil error, nothing forwarded), and when such a response is the
first error encountered in a fine-grained round, the whole operation
aborts: BackupRange returns that error and writes no manifest, even
though other sub-ranges already succeeded. -/
theorem clusterId_or_unknown_fatal (env : BREnv) (sk ek : Key) (path : String)
    (p l : Nat) (stores : List Nat) (results : PushResults) (n : Nat)
    (pre post : List Range) (rg : Range) (leader : Peer)
    (spre spost : List BackupResponse) (rC : BackupResponse)
    (trans : Option Err) (be : BackupError)
    (h1 : env.getTS = .ok (p, l))
    (h2 : env.getAllStores = .ok stores)
    (h3 : env.pushBackup
      ⟨env.clusterID, sk, ek, encodeTs p l, encodeTs p l, path⟩ stores =
      .ok results)
    (hfuel : env.fuel = n + 1)
    (hinc : results.ok.getIncompleteRange sk ek = pre ++ rg :: post)
    (hpre : ∀ x ∈ pre,
      (handleFineGrained env.fg env.clusterID (encodeTs p l) path x).err = none)
    (hl : (findRegionLeader env.fg.getRegion rg.startKey).1 = .ok leader)
    (hs : env.fg.sendBackup leader.storeId
      (fineGrainedRequest env.clusterID (encodeTs p l) path rg) =
      (spre ++ rC :: spost, trans))
    (hspre : ∀ x ∈ spre, (onBackupResponse env.fg.resolveLocks x).2.2 = none)
    (hrC : rC.error = some be)
    (hdet : (∃ c q, be.detail = some (.clusterIdError c q)) ∨ be.detail = none) :
    onBackupResponse env.fg.resolveLocks rC = (none, 0, some (.respError be)) ∧
    ∃ reqs, BackupRange env sk ek path =
      some ⟨some (.respError be), false, false, false, reqs⟩ := by
  have hclass := onBackupResponse_fatal_resp env.fg.resolveLocks rC be hrC hdet
  refine ⟨hclass, ?_⟩
  have hhfg := handleFineGrained_cb_err env.fg env.clusterID (encodeTs p l) path
    rg leader spre spost rC trans (.respError be) hl hs hspre (by rw [hclass])
  have hrs := roundStep_first_err env.fg env.clusterID (encodeTs p l) path
    pre rg post results.ok 0 (.respError be) hpre hhfg.1
  have hne : (results.ok.getIncompleteRange sk ek).isEmpty = false := by
    rw [hinc]; simp
  have hrs2 : (roundStep env.fg env.clusterID (encodeTs p l) path
      (results.ok.getIncompleteRange sk ek) results.ok 0).err =
      some (.respError be) := by
    rw [hinc]; exact hrs
  obtain ⟨rt2, crashed2, acc2, hexit⟩ := fgLoop_round_err_exit env.fg
    env.clusterID sk ek (encodeTs p l) path n results.ok
    ⟨backupFineGrainedMaxBackoff, 0⟩ false [] (.respError be) hne hrs2
  have h4 : fineGrainedBackup env.fg env.clusterID sk ek (encodeTs p l) path
      results.ok env.fuel =
      some ⟨rt2, ⟨backupFineGrainedMaxBackoff, 0⟩, some (.respError be),
        crashed2, acc2⟩ := by
    rw [hfuel]
    exact hexit
  have h5 : crashed2 = false := by
    have := fgLoop_no_crash env.fg env.clusterID sk ek (encodeTs p l) path
      (n + 1) results.ok ⟨backupFineGrainedMaxBackoff, 0⟩ false [] _ hexit
    simpa using this
  subst h5
  exact ⟨_, BackupRange_fg_err env sk ek path p l stores results _
    (.respError be) h1 h2 h3 h4 rfl rfl⟩

theorem clusterId_or_unknown_fatal_witness :
    onBackupResponse fgEnvC5.resolveLocks respCid =
      (none, 0, some (.respError ⟨"cluster id mismatch",
        some (.clusterIdError 1 2)⟩)) ∧
    ∃ reqs, BackupRange brEnvC5 [1] [5] "p" =
      some ⟨some (.respError ⟨"cluster id mismatch",
        some (.clusterIdError 1 2)⟩), false, false, false, reqs⟩ :=
  clusterId_or_unknown_fatal brEnvC5 [1] [5] "p" 1 0 [1] ⟨okTreeC5, ⟨[]⟩⟩ 0
    [⟨[1], [2], []⟩] [] ⟨[3], [5], []⟩ ⟨1, 1⟩ [] [] respCid none
    ⟨"cluster id mismatch", some (.clusterIdError 1 2)⟩
    (by decide) (by decide) (by decide) (by decide) (by decide)
    (by intro x hx; simp at hx; subst hx; decide)
    (by decide) (by decide)
    (by intro x hx; simp at hx)
    (by decide) (Or.inl ⟨1, 2, by decide⟩)

/-- C10: when leader resolution for a sub-range's start key exhausts all
attempts, handleFineGrained returns the "can not find region" error with
a zero backoff and nothing forwarded, and when that sub-range is the
first to fail in a fine-grained round the error is fatal for the whole
operation: fineGrainedBackup returns it in that very round (no later
round retries the sub-range) and BackupRange returns it with no
manifest. -/
theorem leader_resolution_failure_fatal (env : BREnv) (sk ek : Key)
    (path : String) (p l : Nat) (stores : List Nat) (results : PushResults)
    (n : Nat) (pre post : List Range) (rg : Range)
    (h1 : env.getTS = .ok (p, l))
    (h2 : env.getAllStores = .ok stores)
    (h3 : env.pushBackup
      ⟨env.clusterID, sk, ek, encodeTs p l, encodeTs p l, path⟩ stores =
      .ok results)
    (hfuel : env.fuel = n + 1)
    (hinc : results.ok.getIncompleteRange sk ek = pre ++ rg :: post)
    (hpre : ∀ x ∈ pre,
      (handleFineGrained env.fg env.clusterID (encodeTs p l) path x).err = none)
    (hll : ∀ i, i < 5 →
      env.fg.getRegion (encodeBytes rg.startKey) i = .err ∨
      env.fg.getRegion (encodeBytes rg.startKey) i = .found none) :
    handleFineGrained env.fg env.clusterID (encodeTs p l) path rg =
      ⟨0, [], some (.noRegionFound (encodeBytes rg.startKey)), none⟩ ∧
    ∃ reqs, BackupRange env sk ek path =
      some ⟨some (.noRegionFound (encodeBytes rg.startKey)),
        false, false, false, reqs⟩ := by
  have hnone : firstLeaderSpec (env.fg.getRegion (encodeBytes rg.startKey)) 0 5 =
      none := by
    apply firstLeaderSpec_none
    intro j _ hj
    exact hll j (by omega)
  have hfl := (findRegionLeaderAux_spec env.fg.getRegion
    (encodeBytes rg.startKey) 5 0).2 hnone
  have hl : (findRegionLeader env.fg.getRegion rg.startKey).1 =
      .error (.noRegionFound (encodeBytes rg.startKey)) := by
    unfold findRegionLeader
    rw [hfl]
  have hhfg := handleFineGrained_leader_err env.fg env.clusterID
    (encodeTs p l) path rg (.noRegionFound (encodeBytes rg.startKey)) hl
  refine ⟨hhfg, ?_⟩
  have hrs := roundStep_first_err env.fg env.clusterID (encodeTs p l) path
    pre rg post results.ok 0 (.noRegionFound (encodeBytes rg.startKey)) hpre
    (by rw [hhfg])
  have hne : (results.ok.getIncompleteRange sk ek).isEmpty = false := by
    rw [hinc]; simp
  have hrs2 : (roundStep env.fg env.clusterID (encodeTs p l) path
      (results.ok.getIncompleteRange sk ek) results.ok 0).err =
      some (.noRegionFound (encodeBytes rg.startKey)) := by
    rw [hinc]; exact hrs
  obtain ⟨rt2, crashed2, acc2, hexit⟩ := fgLoop_round_err_exit env.fg
    env.clusterID sk ek (encodeTs p l) path n results.ok
    ⟨backupFineGrainedMaxBackoff, 0⟩ false []
    (.noRegionFound (encodeBytes rg.startKey)) hne hrs2
  have h4 : fineGrainedBackup env.fg env.clusterID sk ek (encodeTs p l) path
      results.ok env.fuel =
      some ⟨rt2, ⟨backupFineGrainedMaxBackoff, 0⟩,
        some (.noRegionFound (encodeBytes rg.startKey)), crashed2, acc2⟩ := by
    rw [hfuel]
    exact hexit
  have h5 : crashed2 = false := by
    have := fgLoop_no_crash env.fg env.clusterID sk ek (encodeTs p l) path
      (n + 1) results.ok ⟨backupFineGrainedMaxBackoff, 0⟩ false [] _ hexit
    simpa using this
  subst h5
  exact ⟨_, BackupRange_fg_err env sk ek path p l stores results _
    (.noRegionFound (encodeBytes rg.startKey)) h1 h2 h3 h4 rfl rfl⟩

theorem leader_resolution_failure_fatal_witness :
    handleFineGrained fgEnvC10 1 (encodeTs 1 0) "p" ⟨[1], [2], []⟩ =
      ⟨0, [], some (.noRegionFound (encodeBytes [1])), none⟩ ∧
    ∃ reqs, BackupRange brEnvC10 [1] [2] "p" =
      some ⟨some (.noRegionFound (encodeBytes [1])), false, false, false, reqs⟩ :=
  leader_resolution_failure_fatal brEnvC10 [1] [2] "p" 1 0 [1] ⟨⟨[]⟩, ⟨[]⟩⟩ 0
    [] [] ⟨[1], [2], []⟩
    (by decide) (by decide) (by decide) (by decide) (by decide)
    (by intro x hx; simp at hx)
    (fun i _ => Or.inl rfl)

/-- C1: BackupRange either returns no error, having written the manifest
and then run the duplicate-file audit — whose warning outcome never
changes the returned result — or returns an error, having written no
manifest and run no audit. -/
theorem BackupRange_manifest_discipline (env : BREnv) (sk ek : Key)
    (path : String) (res : BRResult)
    (h : BackupRange env sk ek path = some res) :
    (res.err = none ↔ res.manifestWritten = true) ∧
    (res.err = none ↔ res.audited = true) ∧
    (res.dupWarning = true → res.err = none ∧ res.manifestWritten = true) := by
  rcases hts : env.getTS with ⟨p, l⟩ | e
  · rcases hst : env.getAllStores with stores | e
    · rcases hpb : env.pushBackup
          ⟨env.clusterID, sk, ek, encodeTs p l, encodeTs p l, path⟩ stores
        with results | e
      · rcases hfg : fineGrainedBackup env.fg env.clusterID sk ek (encodeTs p l)
            path results.ok env.fuel with _ | fg
        · simp [BackupRange, hts, hst, hpb, hfg] at h
        · cases hcr : fg.crashed
          · rcases hfe : fg.err with _ | e
            · rcases hm : env.marshal ⟨fg.rt.flatFiles, path⟩ with bytes | e
              · rcases hw : env.writeFile with _ | e
                · simp [BackupRange, hts, hst, hpb, hfg, hcr, hfe, hm, hw] at h
                  subst h
                  simp
                · simp [BackupRange, hts, hst, hpb, hfg, hcr, hfe, hm, hw] at h
                  subst h
                  simp
              · simp [BackupRange, hts, hst, hpb, hfg, hcr, hfe, hm] at h
                subst h
                simp
            · simp [BackupRange, hts, hst, hpb, hfg, hcr, hfe] at h
              subst h
              simp
          · simp [BackupRange, hts, hst, hpb, hfg, hcr] at h
      · simp [BackupRange, hts, hst, hpb] at h
        subst h
        simp
    · simp [BackupRange, hts, hst] at h
      subst h
      simp
  · simp [BackupRange, hts] at h
    subst h
    simp

theorem BackupRange_manifest_discipline_witness :
    ((none : Option Err) = none ↔ true = true) ∧
    ((none : Option Err) = none ↔ true = true) ∧
    (false = true → (none : Option Err) = none ∧ true = true) :=
  BackupRange_manifest_discipline brEnvOk [1] [2] "p"
    ⟨none, true, true, false, [⟨1, [1], [2], 262144, 262144, "p"⟩]⟩ (by decide)

theorem handleFineGrained_req_version (env : FGEnv) (cid ts : Nat)
    (path : String) (rg : Range) (r : BackupRequest)
    (h : (handleFineGrained env cid ts path rg).req = some r) :
    r.startVersion = ts ∧ r.endVersion = ts := by
  rcases hl : (findRegionLeader env.getRegion rg.startKey).1 with leader | e
  · rcases hs : env.sendBackup leader.storeId (fineGrainedRequest cid ts path rg)
      with ⟨resps, sendErr⟩
    rcases hr : handleResponses env.resolveLocks resps 0 with ⟨mx, fwd, cbErr⟩
    have hreq : fineGrainedRequest cid ts path rg = r := by
      rcases cbErr with _ | e1 <;> rcases sendErr with _ | e2 <;>
        simpa [handleFineGrained, hl, hs, hr] using h
    subst hreq
    exact ⟨rfl, rfl⟩
  · simp [handleFineGrained, hl] at h

theorem roundStep_req_version (env : FGEnv) (cid ts : Nat) (path : String) :
    ∀ rgs (rt : RangeTree) (mx : Int) (r : BackupRequest),
      r ∈ (roundStep env cid ts path rgs rt mx).reqs →
      r.startVersion = ts ∧ r.endVersion = ts := by
  intro rgs
  induction rgs with
  | nil => intro rt mx r h; simp [roundStep] at h
  | cons rg rest ih =>
    intro rt mx r h
    rcases hh : handleFineGrained env cid ts path rg with ⟨bms1, fwd1, err1, req1⟩
    rcases hcp : coordPut rt false fwd1 with ⟨rt2, cr2⟩
    rcases err1 with _ | e
    · simp only [roundStep, hh, hcp] at h
      rcases List.mem_append.mp h with h2 | h2
      · rcases req1 with _ | req1'
        · simp at h2
        · simp at h2
          subst h2
          exact handleFineGrained_req_version env cid ts path rg _ (by rw [hh])
      · exact ih _ _ _ h2
    · simp only [roundStep, hh, hcp] at h
      rcases req1 with _ | req1'
      · simp at h
      · simp at h
        subst h
        exact handleFineGrained_req_version env cid ts path rg _ (by rw [hh])

theorem fgLoop_req_version (env : FGEnv) (cid : Nat) (sk ek : Key) (ts : Nat)
    (path : String) :
    ∀ fuel (rt : RangeTree) (bo : Backoffer) (crashed : Bool)
      (acc : List BackupRequest) (res : FGResult),
      fgLoop env cid sk ek ts path fuel rt bo crashed acc = some res →
      (∀ r ∈ acc, r.startVersion = ts ∧ r.endVersion = ts) →
      ∀ r ∈ res.reqs, r.startVersion = ts ∧ r.endVersion = ts := by
  intro fuel
  induction fuel with
  | zero => intro rt bo c acc res h _; simp [fgLoop] at h
  | succ n ih =>
    intro rt bo c acc res h hacc
    cases hinc : (rt.getIncompleteRange sk ek).isEmpty
    · simp only [fgLoop, hinc] at h
      simp only [Bool.false_eq_true, if_false] at h
      have hround_req := roundStep_req_version env cid ts path
        (rt.getIncompleteRange sk ek) rt 0
      rcases hround : roundStep env cid ts path (rt.getIncompleteRange sk ek) rt 0
        with ⟨rrt, rmx, rerr, rcr, rreqs⟩
      rw [hround] at h hround_req
      have hacc2 : ∀ r ∈ acc ++ rreqs,
          r.startVersion = ts ∧ r.endVersion = ts := by
        intro r hr
        rcases List.mem_append.mp hr with hr2 | hr2
        · exact hacc r hr2
        · exact hround_req r hr2
      rcases rerr with _ | e
      · simp only at h
        by_cases hmx : rmx = 0
        · rw [if_neg (by simpa using hmx)] at h
          exact ih _ _ _ _ _ h hacc2
        · rw [if_pos (by simpa using hmx)] at h
          rcases hbo : backoffWithMaxSleep bo rmx with ⟨bo', berr⟩
          rw [hbo] at h
          rcases berr with _ | e2
          · exact ih _ _ _ _ _ h hacc2
          · simp only [Option.some.injEq] at h
            subst h
            exact hacc2
      · simp only [Option.some.injEq] at h
        subst h
        exact hacc2
    · simp only [fgLoop, hinc, if_true] at h
      simp only [Option.some.injEq] at h
      subst h
      exact hacc

/-- C8: within one BackupRange invocation a single snapshot timestamp is
allocated, and every constructed backup request — the cluster-wide
broadcast request and every per-sub-range fine-grained request — carries
that timestamp as both its StartVersion and its EndVersion. -/
theorem BackupRange_single_timestamp (env : BREnv) (sk ek : Key) (path : String)
    (p l : Nat) (res : BRResult)
    (hts : env.getTS = .ok (p, l))
    (h : BackupRange env sk ek path = some res) :
    ∀ req ∈ res.reqs,
      req.startVersion = encodeTs p l ∧ req.endVersion = encodeTs p l := by
  rcases hst : env.getAllStores with stores | e
  · rcases hpb : env.pushBackup
        ⟨env.clusterID, sk, ek, encodeTs p l, encodeTs p l, path⟩ stores
      with results | e
    · rcases hfg : fineGrainedBackup env.fg env.clusterID sk ek (encodeTs p l)
          path results.ok env.fuel with _ | fg
      · simp [BackupRange, hts, hst, hpb, hfg] at h
      · have hfgreqs : ∀ r ∈ fg.reqs,
            r.startVersion = encodeTs p l ∧ r.endVersion = encodeTs p l := by
          have hfg2 : fgLoop env.fg env.clusterID sk ek (encodeTs p l) path
              env.fuel results.ok ⟨backupFineGrainedMaxBackoff, 0⟩ false [] =
              some fg := hfg
          exact fgLoop_req_version env.fg env.clusterID sk ek (encodeTs p l)
            path env.fuel results.ok ⟨backupFineGrainedMaxBackoff, 0⟩ false []
            fg hfg2 (by intro r hr; simp at hr)
        have hall : ∀ req ∈ (⟨env.clusterID, sk, ek, encodeTs p l, encodeTs p l,
            path⟩ : BackupRequest) :: fg.reqs,
            req.startVersion = encodeTs p l ∧ req.endVersion = encodeTs p l := by
          intro req hreq
          rcases List.mem_cons.mp hreq with rfl | hreq2
          · exact ⟨rfl, rfl⟩
          · exact hfgreqs req hreq2
        cases hcr : fg.crashed
        · rcases hfe : fg.err with _ | e
          · rcases hm : env.marshal ⟨fg.rt.flatFiles, path⟩ with bytes | e
            · rcases hw : env.writeFile with _ | e
              · simp only [BackupRange, hts, hst, hpb, hfg, hcr, hfe, hm, hw,
                  Bool.false_eq_true, if_false, Option.some.injEq] at h
                subst h
                exact hall
              · simp only [BackupRange, hts, hst, hpb, hfg, hcr, hfe, hm, hw,
                  Bool.false_eq_true, if_false, Option.some.injEq] at h
                subst h
                exact hall
            · simp only [BackupRange, hts, hst, hpb, hfg, hcr, hfe, hm,
                Bool.false_eq_true, if_false, Option.some.injEq] at h
              subst h
              exact hall
          · simp only [BackupRange, hts, hst, hpb, hfg, hcr, hfe,
              Bool.false_eq_true, if_false, Option.some.injEq] at h
            subst h
            exact hall
        · simp [BackupRange, hts, hst, hpb, hfg, hcr] at h
    · simp [BackupRange, hts, hst, hpb] at h
      subst h
      intro req hreq
      simp at hreq
      subst hreq
      exact ⟨rfl, rfl⟩
  · simp [BackupRange, hts, hst] at h
    subst h
    intro req hreq
    simp at hreq

theorem BackupRange_single_timestamp_witness :
    BackupRequest.startVersion ⟨1, [1], [2], 262144, 262144, "p"⟩ =
      encodeTs 1 0 ∧
    BackupRequest.endVersion ⟨1, [1], [2], 262144, 262144, "p"⟩ =
      encodeTs 1 0 :=
  BackupRange_single_timestamp brEnvOk [1] [2] "p" 1 0
    ⟨none, true, true, false, [⟨1, [1], [2], 262144, 262144, "p"⟩]⟩
    (by decide) (by decide) ⟨1, [1], [2], 262144, 262144, "p"⟩ (by decide)

end Raw
